import Mathlib

/-!
Verification of the sdrconnect-scanner scan execution engine
(file sdrconnect-scanner.go) against its natural-language specification.

The Go source is shallowly embedded: pure helpers become Lean functions on
Nat, Int and Rat (float64 samples are modelled as exact rationals, which is
faithful for the order comparisons, min and max the code performs on them);
the websocket receive loops become functions over an explicit list of
receive events (a message, a read-deadline expiry, or another transport
error), with the global mutable state (settings, statistics, user-command
flags) passed explicitly. Machine integers keep their wrap-around
semantics via explicit mod 2^32 / mod 2^64 where overflow can matter.
-/

namespace SdrconnectScanner

/-! ## Models of Go standard-library helpers used by the scanner

These model the strconv / strings functions the scanner calls.  They are
library code, not repository code, so they are modelled from the Go
standard library documentation to the extent the scanner exercises them.
-/

/-- Model of strconv.ParseUint(s, 10, bitSize) with the error ignored, as the
scanner does: a syntax error (empty string or a non-digit character) yields 0,
a range error yields the maximum value for the bit size.  Base-0 prefix forms
(0x, 0o, 0b, accepted only by the lna_state parse) are not modelled; every
value the claims exercise is plain decimal. -/
def goParseUint (s : String) (bitSize : Nat) : Nat :=
  let cs := s.toList
  if cs ≠ [] ∧ cs.all Char.isDigit then
    let v := cs.foldl (fun acc c => acc * 10 + (c.toNat - '0'.toNat)) 0
    min v (2 ^ bitSize - 1)
  else 0

/-- Model of strconv.ParseFloat(s, 64) with the error ignored, as the scanner
does: an optional sign, decimal digits, an optional fractional part; any
other shape (including exponents, which the protocol never sends) yields 0.
The float64 rounding step is not modelled: the parsed rational stands for
the real value the text denotes, which is faithful for the order
comparisons, min and max the scanner performs on these values. -/
def goParseFloat (s : String) : ℚ :=
  let parseMag : List Char → ℚ := fun cs =>
    let intDigits := cs.takeWhile Char.isDigit
    let rest := cs.drop intDigits.length
    let intVal : ℕ := intDigits.foldl (fun acc c => acc * 10 + (c.toNat - '0'.toNat)) 0
    match rest with
    | [] => if intDigits ≠ [] then (intVal : ℚ) else 0
    | '.' :: frac =>
        if (intDigits ≠ [] ∨ frac ≠ []) ∧ frac.all Char.isDigit then
          let fracVal : ℕ := frac.foldl (fun acc c => acc * 10 + (c.toNat - '0'.toNat)) 0
          (intVal : ℚ) + (fracVal : ℚ) / ((10 : ℚ) ^ frac.length)
        else 0
    | _ => 0
  match s.toList with
  | '-' :: cs => -(parseMag cs)
  | '+' :: cs => parseMag cs
  | cs => parseMag cs

/-- Model of strconv.ParseBool(s) with the error ignored, as the scanner
does: the six true spellings yield true, everything else (including the
false spellings and syntax errors) yields false. -/
def goParseBool (s : String) : Bool :=
  s = "1" ∨ s = "t" ∨ s = "T" ∨ s = "TRUE" ∨ s = "true" ∨ s = "True"

/-- The white-space predicate of unicode.IsSpace restricted to the Latin-1
range (space, tab, newline, vertical tab, form feed, carriage return,
next line, no-break space), which is what strings.TrimSpace trims. -/
def isGoSpace (c : Char) : Bool :=
  c = ' ' ∨ c = '\t' ∨ c = '\n' ∨ c = Char.ofNat 11 ∨ c = Char.ofNat 12 ∨
    c = '\r' ∨ c = Char.ofNat 0x85 ∨ c = Char.ofNat 0xA0

/-- Model of strings.TrimSpace: drop white space from both ends. -/
def goTrimSpace (s : String) : String :=
  String.mk (((s.toList.dropWhile isGoSpace).reverse.dropWhile isGoSpace).reverse)

/-! ## Demodulator modes (type DemodulatorMode and ParseDemodulatorMode) -/

/-- The DemodulatorMode enumeration of the scanner. -/
inductive DemodulatorMode where
  | unknown
  | am
  | usb
  | lsb
  | cw
  | sam
  | nfm
  | wfm
deriving DecidableEq, Repr

/-- ParseDemodulatorMode with the error dropped, as the receive loop does
(an unrecognized string leaves DemodulatorUnknown). -/
def goParseDemodulatorMode (s : String) : DemodulatorMode :=
  if s = "AM" then .am
  else if s = "USB" then .usb
  else if s = "LSB" then .lsb
  else if s = "CW" then .cw
  else if s = "SAM" then .sam
  else if s = "NFM" then .nfm
  else if s = "WFM" then .wfm
  else .unknown

/-! ## Protocol messages (type Message) -/

/-- A protocol message: event type, property name, value, all strings,
exactly as in the Go Message struct. -/
structure Message where
  eventType : String
  property : String
  value : String
deriving DecidableEq, Repr

/-! ## IF bandwidth (func getIFBandwidth) -/

/-- The ordered breakpoint table (in kHz) of getIFBandwidth. -/
def bandwidthskHz : List ℕ := [200, 300, 600, 1536, 5000, 6000, 7000, 8000]

/-- The range loop of getIFBandwidth: walk the breakpoints carrying the
previous one; return the previous breakpoint (times 1000) at the first
breakpoint strictly above the rate, or the last breakpoint when none is. -/
def getIFBandwidthLoop (rate : ℕ) : ℕ → List ℕ → ℕ
  | prevBandwidth, [] => prevBandwidth * 1000
  | prevBandwidth, bandwidth :: rest =>
      if rate < bandwidth then prevBandwidth * 1000
      else getIFBandwidthLoop rate bandwidth rest

/-- getIFBandwidth: the sample rate (a float64) is divided by 1000 and
truncated to uint32, then mapped through the breakpoint table. -/
def getIFBandwidth (sampleRate : ℚ) : ℕ :=
  let rate : ℕ := (⌊sampleRate / 1000⌋).toNat
  getIFBandwidthLoop rate (bandwidthskHz.headD 0) bandwidthskHz

/-- The IF-bandwidth selection rule exactly as the claim words it: the first
breakpoint whose threshold exceeds sampleRate/1000, else the last breakpoint
(in Hz). -/
def claimIFBandwidth (sampleRate : ℚ) : ℕ :=
  let rate : ℕ := (⌊sampleRate / 1000⌋).toNat
  match bandwidthskHz.find? (fun b => rate < b) with
  | some b => b * 1000
  | none => (bandwidthskHz.getLastD 0) * 1000

/-- The amended IF-bandwidth rule: the largest breakpoint that does not
exceed sampleRate/1000 (the first breakpoint, 200 kHz, when the rate is
below all of them), in Hz. -/
def amendedIFBandwidth (sampleRate : ℚ) : ℕ :=
  let rate : ℕ := (⌊sampleRate / 1000⌋).toNat
  ((bandwidthskHz.filter (fun b => b ≤ rate)).foldl max 200) * 1000

/-- Floor of a rational divided by 1000, expressed through integer division
so that concrete instances reduce inside the kernel. -/
lemma floor_div_thousand (q : ℚ) : ⌊q / 1000⌋ = q.num / (1000 * (q.den : ℤ)) := by
  have h : q / 1000 = ((q.num : ℚ)) / (((1000 * q.den : ℕ) : ℚ)) := by
    conv_lhs => rw [← Rat.num_div_den q]
    push_cast
    rw [div_div, mul_comm]
  rw [h, Rat.floor_intCast_div_natCast]
  push_cast
  ring_nf

/-- On a sorted breakpoint list whose entries all dominate the carried
previous value, the getIFBandwidth loop returns the largest entry not
exceeding the rate (times 1000), falling back to the carried value. -/
lemma getIFBandwidthLoop_eq_filter (r : ℕ) : ∀ (l : List ℕ), ∀ (prev : ℕ),
    l.Pairwise (· ≤ ·) → (∀ x ∈ l, prev ≤ x) →
    getIFBandwidthLoop r prev l = ((l.filter (fun b => b ≤ r)).foldl max prev) * 1000 := by
  intro l
  induction l with
  | nil => intro prev _ _; simp [getIFBandwidthLoop]
  | cons b rest ih =>
    intro prev hp hge
    rw [List.pairwise_cons] at hp
    simp only [getIFBandwidthLoop, List.filter_cons]
    by_cases hr : r < b
    · rw [if_pos hr]
      have hfil : rest.filter (fun x => decide (x ≤ r)) = [] := by
        rw [List.filter_eq_nil_iff]
        intro x hx
        simp only [decide_eq_true_eq]
        have := hp.1 x hx
        omega
      have hb : (decide (b ≤ r)) = false := by simp; omega
      simp [hb, hfil]
    · rw [if_neg hr]
      have hb : (decide (b ≤ r)) = true := by simp; omega
      rw [ih b hp.2 hp.1]
      have hmax : max prev b = b := by
        have := hge b (by simp)
        omega
      simp [hb, hmax]

/-- C2 counterexample: at sample rate 2 MHz (rate 2000 kHz), the code
returns the 1536 kHz bucket (the largest breakpoint not exceeding the
rate), while the claim's rule — the first bucket whose threshold exceeds
sampleRate/1000 — selects the 5000 kHz bucket. -/
theorem claim_C2_counterexample :
    getIFBandwidth 2000000 = 1536000 ∧ claimIFBandwidth 2000000 = 5000000 ∧
      getIFBandwidth 2000000 ≠ claimIFBandwidth 2000000 := by
  refine ⟨?_, ?_, ?_⟩
  · simp only [getIFBandwidth, floor_div_thousand]
    decide
  · simp only [claimIFBandwidth, floor_div_thousand]
    decide
  · simp only [getIFBandwidth, claimIFBandwidth, floor_div_thousand]
    decide

/-- C2 amended: for every sample rate, getIFBandwidth maps it through the
ordered breakpoints 200/300/600/1536/5000/6000/7000/8000 kHz by selecting
the largest breakpoint that does not exceed sampleRate/1000 (the first
bucket, 200 kHz, when the rate is below all of them). -/
theorem claim_C2_amended (sampleRate : ℚ) :
    getIFBandwidth sampleRate = amendedIFBandwidth sampleRate := by
  unfold getIFBandwidth amendedIFBandwidth
  rw [getIFBandwidthLoop_eq_filter]
  · rfl
  · decide
  · decide

/-! ## Signal detection (func detectSignal) -/

/-- Model of slices.Max on float64 samples.  slices.Max panics on an empty
slice; the scanner only calls it on non-empty tails, so the empty case here
is arbitrary (0) and unreachable in every use below. -/
def goSlicesMax : List ℚ → ℚ
  | [] => 0
  | x :: xs => xs.foldl max x

/-- Model of slices.Min on float64 samples, empty case unreachable as for
goSlicesMax. -/
def goSlicesMin : List ℚ → ℚ
  | [] => 0
  | x :: xs => xs.foldl min x

/-- The per-metric maximum of detectSignal: the -1000 sentinel for no
samples, the sole sample for one, and the maximum over all samples except
the first for two or more (the first may be tainted by the previous
frequency). -/
def signalMaxRule : List ℚ → ℚ
  | [] => -1000
  | [x] => x
  | _ :: rest => goSlicesMax rest

/-- detectSignal: signal detected when the power maximum reaches the power
threshold or the SNR maximum reaches the SNR threshold. -/
def detectSignal (detectPowerThreshold detectSNRThreshold : ℚ)
    (signalPower signalSNR : List ℚ) : Bool :=
  let signalPowerMax := signalMaxRule signalPower
  let signalSNRMax := signalMaxRule signalSNR
  signalPowerMax ≥ detectPowerThreshold ∨ signalSNRMax ≥ detectSNRThreshold

/-- C6: the detection rule computes the per-metric maxima by the
0-sample/1-sample/2-plus-sample rule with the -1000 sentinel, detects iff
either maximum reaches its threshold, the sentinel guarantees non-detection
for thresholds above it, and with power threshold -70 and power samples
[-40, -80, -75] power alone does not trigger (the max of [-80, -75] is
-75 < -70). -/
theorem claim_C6_detect_rule :
    (∀ (pThr sThr : ℚ) (sp ssnr : List ℚ),
        detectSignal pThr sThr sp ssnr = true ↔
          (signalMaxRule sp ≥ pThr ∨ signalMaxRule ssnr ≥ sThr)) ∧
    signalMaxRule [] = -1000 ∧
    (∀ x : ℚ, signalMaxRule [x] = x) ∧
    (∀ (x y : ℚ) (rest : List ℚ), signalMaxRule (x :: y :: rest) = goSlicesMax (y :: rest)) ∧
    (∀ pThr sThr : ℚ, -1000 < pThr → -1000 < sThr →
        detectSignal pThr sThr [] [] = false) ∧
    signalMaxRule [-40, -80, -75] = -75 ∧
    detectSignal (-70) 0 [-40, -80, -75] [] = false := by
  refine ⟨?_, rfl, fun x => rfl, fun x y rest => rfl, ?_, by decide, by decide⟩
  · intro pThr sThr sp ssnr
    simp [detectSignal]
  · intro pThr sThr hp hs
    simp only [detectSignal, signalMaxRule, decide_eq_false_iff_not]
    push_neg
    constructor <;> simpa using by first | exact hp | exact hs

/-- C6 witness: the universally quantified conjuncts of the detection-rule
theorem instantiated at concrete inputs. -/
theorem claim_C6_detect_rule_witness :
    ((-1000 : ℚ) < -70) ∧ ((-1000 : ℚ) < 0) ∧ detectSignal (-70) 0 [] [] = false := by
  refine ⟨by decide, by decide, ?_⟩
  exact claim_C6_detect_rule.2.2.2.2.1 (-70) 0 (by decide) (by decide)

/-! ## Report formatting: the power field of showStats -/

/-- Model of the Sprintf verb %.1f: round to one decimal digit.  The value
n is the floor of q*10 + 1/2 (written through the numerator and denominator
so that concrete instances reduce in the kernel; the lemma fmt1f_rounds
below states the equality).  Exact on every multiple of 1/10, which covers
every value the claims exercise; Go's ties-to-even behaviour on exact
midpoints is not modelled. -/
def fmt1f (q : ℚ) : String :=
  let n : ℤ := (20 * q.num + q.den) / (2 * q.den)
  (if n < 0 then "-" else "") ++ toString (n.natAbs / 10) ++ "." ++ toString (n.natAbs % 10)

/-- The rounding step of fmt1f is the floor of q*10 + 1/2. -/
lemma fmt1f_rounds (q : ℚ) :
    (20 * q.num + q.den) / (2 * (q.den : ℤ)) = ⌊q * 10 + 1 / 2⌋ := by
  have h : q * 10 + 1 / 2 = ((20 * q.num + q.den : ℤ) : ℚ) / (((2 * q.den : ℕ) : ℚ)) := by
    conv_lhs => rw [← Rat.num_div_den q]
    have hd : (q.den : ℚ) ≠ 0 := by
      exact_mod_cast q.den_nz
    push_cast
    field_simp
    ring
  rw [h, Rat.floor_intCast_div_natCast]
  push_cast
  ring_nf

/-- The power field of showStats: absent without samples, a single value
for exactly one sample, and a [min,max] range over all samples except the
first for two or more. -/
def showStatsPower (signalPower : List ℚ) : Option String :=
  if signalPower.length = 1 then
    some ("pwr=" ++ fmt1f (signalPower.headD 0) ++ "dB")
  else if signalPower.length > 1 then
    some ("pwr=[" ++ fmt1f (goSlicesMin signalPower.tail) ++ "dB," ++
      fmt1f (goSlicesMax signalPower.tail) ++ "dB]")
  else none

/-- C3 counterexample: with the two power samples [-60, -55] the formatter
takes the more-than-one-sample branch and emits the degenerate range
pwr=[-55.0dB,-55.0dB], not the single value pwr=-55.0dB the claim states. -/
theorem claim_C3_counterexample :
    showStatsPower [-60, -55] = some "pwr=[-55.0dB,-55.0dB]" ∧
      showStatsPower [-60, -55] ≠ some "pwr=-55.0dB" := by
  constructor <;> decide

/-- C3 amended: the power field is the single value pwr=v.vdB exactly when
there is exactly one sample; with two or more samples (including the
two-sample statistics [-60, -55]) it is always the [min,max] range over all
samples except the first, degenerate when only one sample remains; with no
samples it is absent. -/
theorem claim_C3_amended (signalPower : List ℚ) :
    (signalPower.length = 1 →
      showStatsPower signalPower = some ("pwr=" ++ fmt1f (signalPower.headD 0) ++ "dB")) ∧
    (signalPower.length ≥ 2 →
      showStatsPower signalPower =
        some ("pwr=[" ++ fmt1f (goSlicesMin signalPower.tail) ++ "dB," ++
          fmt1f (goSlicesMax signalPower.tail) ++ "dB]")) ∧
    (signalPower = [] → showStatsPower signalPower = none) := by
  refine ⟨fun h1 => ?_, fun h2 => ?_, fun h0 => ?_⟩
  · simp [showStatsPower, h1]
  · have hne : ¬ signalPower.length = 1 := by omega
    have hgt : signalPower.length > 1 := by omega
    simp [showStatsPower, hne, hgt]
  · subst h0
    rfl

/-- C3 amended witness: the amended formatter facts at the concrete
two-sample statistics of the claim. -/
theorem claim_C3_amended_witness :
    (([-60, -55] : List ℚ).length ≥ 2) ∧
      showStatsPower [-60, -55] =
        some ("pwr=[" ++ fmt1f (goSlicesMin ([-60, -55] : List ℚ).tail) ++ "dB," ++
          fmt1f (goSlicesMax ([-60, -55] : List ℚ).tail) ++ "dB]") :=
  ⟨by decide, (claim_C3_amended [-60, -55]).2.1 (by decide)⟩

/-! ## LO span planner (type LOSpan, func getLOSpans)

The planner walks the plan's frequencies with their indexes (which the
generator emits consecutively from 0), keeping a running min/max of the
open span and closing the span whenever the spread would exceed maxDf.
The Go fields from/to are Lean keywords and are embedded as
fromIdx/toIdx; uint64 overflow in the midpoint computation and in the
int64/uint64 reinterpretation of the center frequency is kept explicit
via mod 2^64.
-/

/-- An LO span: a contiguous index range of the plan plus the tuner center
frequency covering it. -/
structure LOSpan where
  fromIdx : ℕ
  toIdx : ℕ
  frequency : ℕ
deriving DecidableEq, Repr

/-- The emitted center frequency: uint64(int64(flo) + int64(loOffset)).
The two two's-complement reinterpretations compose to mod 2^64 on the
integer sum. -/
def centerFrequency (flo : ℕ) (loOffset : ℤ) : ℕ :=
  (((flo : ℤ) + loOffset) % (2 ^ 64)).toNat

/-- The loop state of getLOSpans: running min/max/midpoint of the open
span, its start index, the last index seen, and the closed spans. -/
structure SpanState where
  fmin : ℕ
  fmax : ℕ
  flo : ℕ
  idxFrom : ℕ
  idxTo : ℕ
  spans : List LOSpan
deriving DecidableEq, Repr

/-- The main loop of getLOSpans over the remaining (frequency, index)
stream; the final span is emitted unconditionally at the end. -/
def getLOSpansLoop (maxDf : ℕ) (loOffset : ℤ) : List ℕ → ℕ → SpanState → List LOSpan
  | [], _, st => st.spans ++ [⟨st.idxFrom, st.idxTo, centerFrequency st.flo loOffset⟩]
  | freq :: rest, idx, st =>
      let fmin := min st.fmin freq
      let fmax := max st.fmax freq
      if fmax - fmin > maxDf then
        getLOSpansLoop maxDf loOffset rest (idx + 1)
          ⟨freq, freq, (freq + freq) % (2 ^ 64) / 2, idx, idx,
            st.spans ++ [⟨st.idxFrom, st.idxTo, centerFrequency st.flo loOffset⟩]⟩
      else
        getLOSpansLoop maxDf loOffset rest (idx + 1)
          ⟨fmin, fmax, (fmin + fmax) % (2 ^ 64) / 2, st.idxFrom, idx, st.spans⟩

/-- The available-bandwidth bound of getLOSpans:
uint64(getIFBandwidth(sampleRate) - filterBandwidth - uint32(max(off, -off))),
the uint32 subtractions wrapping mod 2^32. -/
def computeMaxDf (sampleRate : ℚ) (filterBandwidth : ℕ) (loOffset : ℤ) : ℕ :=
  (((getIFBandwidth sampleRate : ℤ) - filterBandwidth -
      max loOffset (-loOffset)) % (2 ^ 32)).toNat

/-- getLOSpans: run the loop from the sentinel state (fmin = MaxUint64,
fmax = 0, flo their midpoint) over the plan's frequencies. -/
def getLOSpans (sampleRate : ℚ) (filterBandwidth : ℕ) (loOffset : ℤ)
    (freqs : List ℕ) : List LOSpan :=
  getLOSpansLoop (computeMaxDf sampleRate filterBandwidth loOffset) loOffset freqs 0
    ⟨2 ^ 64 - 1, 0, (2 ^ 64 - 1 + 0) / 2, 0, 0, []⟩

/-- The spans tile the index interval from start (inclusive) to n
(exclusive) contiguously, in increasing order and without overlap. -/
def coversFrom : ℕ → List LOSpan → ℕ → Prop
  | start, [], n => start = n
  | start, s :: rest, n => s.fromIdx = start ∧ start ≤ s.toIdx ∧ coversFrom (s.toIdx + 1) rest n

/-- The half-open slice of the plan between two indexes. -/
def sliceHO (freqs : List ℕ) (a b : ℕ) : List ℕ := (freqs.drop a).take (b - a)

/-- The target frequencies assigned to a span. -/
def targetsOf (freqs : List ℕ) (s : LOSpan) : List ℕ := sliceHO freqs s.fromIdx (s.toIdx + 1)

/-- Any two targets of the span differ by at most maxDf. -/
def spanSpreadOK (freqs : List ℕ) (maxDf : ℕ) (s : LOSpan) : Prop :=
  ∀ x ∈ targetsOf freqs s, ∀ y ∈ targetsOf freqs s, x - y ≤ maxDf

/-- Model of slices.Max on the plan's uint64 frequencies (empty case
unreachable in every use). -/
def natSlicesMax : List ℕ → ℕ
  | [] => 0
  | x :: xs => xs.foldl max x

/-- Model of slices.Min on the plan's uint64 frequencies (empty case
unreachable in every use). -/
def natSlicesMin : List ℕ → ℕ
  | [] => 0
  | x :: xs => xs.foldl min x

lemma getElemQ_drop (l : List ℕ) : ∀ (a i : ℕ), (l.drop a)[i]? = l[a + i]? := by
  induction l with
  | nil => intro a i; simp
  | cons x t ih =>
    intro a i
    cases a with
    | zero => simp
    | succ a =>
      have h : (x :: t).drop (a + 1) = t.drop a := rfl
      rw [h, ih a i]
      have h2 : a + 1 + i = (a + i) + 1 := by omega
      rw [h2, List.getElem?_cons_succ]

lemma sliceHO_snoc (freqs : List ℕ) (a idx f : ℕ) (hai : a ≤ idx)
    (hget : freqs[idx]? = some f) :
    sliceHO freqs a (idx + 1) = sliceHO freqs a idx ++ [f] := by
  unfold sliceHO
  have h1 : idx + 1 - a = (idx - a) + 1 := by omega
  rw [h1, List.take_succ, getElemQ_drop]
  have h2 : a + (idx - a) = idx := by omega
  rw [h2, hget]
  rfl

lemma sliceHO_self (freqs : List ℕ) (idx f : ℕ)
    (hget : freqs[idx]? = some f) :
    sliceHO freqs idx (idx + 1) = [f] := by
  have h := sliceHO_snoc freqs idx idx f (le_refl idx) hget
  have h0 : sliceHO freqs idx idx = [] := by
    unfold sliceHO
    simp
  rw [h, h0]
  rfl

lemma coversFrom_append : ∀ (spans : List LOSpan) (start : ℕ) (s : LOSpan),
    coversFrom start spans s.fromIdx → s.fromIdx ≤ s.toIdx →
    coversFrom start (spans ++ [s]) (s.toIdx + 1) := by
  intro spans
  induction spans with
  | nil =>
    intro start s h hle
    unfold coversFrom at h
    subst h
    exact ⟨rfl, hle, rfl⟩
  | cons t rest ih =>
    intro start s h hle
    obtain ⟨h1, h2, h3⟩ := h
    exact ⟨h1, h2, ih _ s h3 hle⟩

lemma coversFrom_start_le : ∀ (spans : List LOSpan) (start n : ℕ),
    coversFrom start spans n → start ≤ n := by
  intro spans
  induction spans with
  | nil => intro start n h; unfold coversFrom at h; omega
  | cons s rest ih =>
    intro start n h
    obtain ⟨_, h2, h3⟩ := h
    have := ih _ _ h3
    omega

lemma coversFrom_mem_bounds : ∀ (spans : List LOSpan) (start n : ℕ) (s : LOSpan),
    coversFrom start spans n → s ∈ spans →
    start ≤ s.fromIdx ∧ s.fromIdx ≤ s.toIdx ∧ s.toIdx < n := by
  intro spans
  induction spans with
  | nil => intro start n s _ hmem; cases hmem
  | cons t rest ih =>
    intro start n s h hmem
    obtain ⟨h1, h2, h3⟩ := h
    rcases List.mem_cons.mp hmem with heq | hmem'
    · subst heq
      have := coversFrom_start_le rest _ _ h3
      omega
    · have := ih _ _ s h3 hmem'
      omega

lemma coversFrom_length_one : ∀ (spans : List LOSpan),
    coversFrom 0 spans 1 → spans.length = 1 := by
  intro spans h
  match spans with
  | [] => unfold coversFrom at h; omega
  | [s] => rfl
  | s :: s' :: rest =>
    obtain ⟨h1, h2, h3⟩ := h
    obtain ⟨h4, h5, h6⟩ := h3
    have := coversFrom_start_le rest _ _ h6
    omega

/-- The loop invariant of getLOSpans: with the closed spans tiling the
indexes before the open span, and the open span's running min/max bounding
its slice within maxDf, the loop's result tiles the whole plan and every
emitted span's targets pairwise differ by at most maxDf. -/
lemma getLOSpansLoop_invariant (freqs : List ℕ) (maxDf : ℕ) (off : ℤ) :
    ∀ (rest : List ℕ) (idx : ℕ) (st : SpanState),
      freqs.drop idx = rest →
      idx ≤ freqs.length →
      idx = st.idxTo + 1 →
      st.idxFrom ≤ st.idxTo →
      coversFrom 0 st.spans st.idxFrom →
      (∀ s ∈ st.spans, spanSpreadOK freqs maxDf s) →
      (∀ x ∈ sliceHO freqs st.idxFrom idx, st.fmin ≤ x ∧ x ≤ st.fmax) →
      st.fmax - st.fmin ≤ maxDf →
      coversFrom 0 (getLOSpansLoop maxDf off rest idx st) freqs.length ∧
      ∀ s ∈ getLOSpansLoop maxDf off rest idx st, spanSpreadOK freqs maxDf s := by
  intro rest
  induction rest with
  | nil =>
    intro idx st hdrop hlen hidx hfromto hcov hspread hopen hdf
    have hlen' : idx = freqs.length := by
      have := congrArg List.length hdrop
      simp at this
      omega
    unfold getLOSpansLoop
    constructor
    · have h := coversFrom_append st.spans 0
        ⟨st.idxFrom, st.idxTo, centerFrequency st.flo off⟩ hcov hfromto
      have hh : freqs.length = st.idxTo + 1 := by omega
      rw [hh]
      exact h
    · intro s hs
      rcases List.mem_append.mp hs with h | h
      · exact hspread s h
      · have hseq : s = ⟨st.idxFrom, st.idxTo, centerFrequency st.flo off⟩ := by
          simpa using h
        subst hseq
        intro x hx y hy
        simp only [targetsOf] at hx hy
        rw [← hidx] at hx hy
        have hx' := hopen x hx
        have hy' := hopen y hy
        omega
  | cons f rest' ih =>
    intro idx st hdrop hlen hidx hfromto hcov hspread hopen hdf
    have hne : freqs.drop idx ≠ [] := by rw [hdrop]; simp
    have hlt : idx < freqs.length := List.length_lt_of_drop_ne_nil hne
    have hgetcons := List.drop_eq_getElem_cons hlt
    rw [hdrop] at hgetcons
    injection hgetcons with hfeq hrest
    have hget : freqs[idx]? = some f := by
      rw [List.getElem?_eq_getElem hlt, ← hfeq]
    simp only [getLOSpansLoop]
    split_ifs with hbreak
    · -- close the current span, open a fresh one at idx
      refine ih (idx + 1)
        ⟨f, f, (f + f) % (2 ^ 64) / 2, idx, idx,
          st.spans ++ [⟨st.idxFrom, st.idxTo, centerFrequency st.flo off⟩]⟩
        ?_ ?_ ?_ ?_ ?_ ?_ ?_ ?_
      · exact hrest.symm
      · omega
      · rfl
      · exact le_refl idx
      · have h := coversFrom_append st.spans 0
          ⟨st.idxFrom, st.idxTo, centerFrequency st.flo off⟩ hcov hfromto
        show coversFrom 0 _ idx
        rw [hidx]
        exact h
      · intro s hs
        rcases List.mem_append.mp hs with h | h
        · exact hspread s h
        · have hseq : s = ⟨st.idxFrom, st.idxTo, centerFrequency st.flo off⟩ := by
            simpa using h
          subst hseq
          intro x hx y hy
          simp only [targetsOf] at hx hy
          rw [← hidx] at hx hy
          have hx' := hopen x hx
          have hy' := hopen y hy
          omega
      · intro x hx
        rw [sliceHO_self freqs idx f hget] at hx
        have hxf : x = f := by simpa using hx
        subst hxf
        exact ⟨le_refl x, le_refl x⟩
      · simp
    · -- extend the current span
      refine ih (idx + 1)
        ⟨min st.fmin f, max st.fmax f, (min st.fmin f + max st.fmax f) % (2 ^ 64) / 2,
          st.idxFrom, idx, st.spans⟩ ?_ ?_ ?_ ?_ ?_ ?_ ?_ ?_
      · exact hrest.symm
      · omega
      · rfl
      · show st.idxFrom ≤ idx
        omega
      · exact hcov
      · exact hspread
      · intro x hx
        rw [sliceHO_snoc freqs st.idxFrom idx f (by omega) hget] at hx
        rcases List.mem_append.mp hx with h | h
        · have := hopen x h
          dsimp only
          omega
        · have hxf : x = f := by simpa using h
          subst hxf
          dsimp only
          omega
      · dsimp only
        omega

lemma foldl_max_mem (xs : List ℕ) : ∀ x : ℕ, xs.foldl max x ∈ x :: xs := by
  induction xs with
  | nil => intro x; simp
  | cons y ys ih =>
    intro x
    rw [List.foldl_cons]
    rcases List.mem_cons.mp (ih (max x y)) with h1 | h1
    · rw [h1]
      rcases max_choice x y with hm | hm <;> rw [hm] <;> simp
    · exact List.mem_cons_of_mem x (List.mem_cons_of_mem y h1)

lemma foldl_min_mem (xs : List ℕ) : ∀ x : ℕ, xs.foldl min x ∈ x :: xs := by
  induction xs with
  | nil => intro x; simp
  | cons y ys ih =>
    intro x
    rw [List.foldl_cons]
    rcases List.mem_cons.mp (ih (min x y)) with h1 | h1
    · rw [h1]
      rcases min_choice x y with hm | hm <;> rw [hm] <;> simp
    · exact List.mem_cons_of_mem x (List.mem_cons_of_mem y h1)

lemma natSlicesMax_mem : ∀ l : List ℕ, l ≠ [] → natSlicesMax l ∈ l
  | [], h => absurd rfl h
  | x :: xs, _ => by simpa [natSlicesMax] using foldl_max_mem xs x

lemma natSlicesMin_mem : ∀ l : List ℕ, l ≠ [] → natSlicesMin l ∈ l
  | [], h => absurd rfl h
  | x :: xs, _ => by simpa [natSlicesMin] using foldl_min_mem xs x

lemma targetsOf_ne_nil (freqs : List ℕ) (s : LOSpan)
    (h1 : s.fromIdx ≤ s.toIdx) (h2 : s.toIdx < freqs.length) :
    targetsOf freqs s ≠ [] := by
  unfold targetsOf sliceHO
  apply List.ne_nil_of_length_pos
  simp only [List.length_take, List.length_drop]
  omega

lemma getIFBandwidth_le (sampleRate : ℚ) : getIFBandwidth sampleRate ≤ 8000000 := by
  unfold getIFBandwidth
  generalize (⌊sampleRate / 1000⌋).toNat = r
  simp only [bandwidthskHz, List.headD, getIFBandwidthLoop]
  split_ifs <;> omega

/-- C4: for every non-empty plan of uint64 frequencies whose available
bandwidth (IF bandwidth minus filter bandwidth minus the absolute offset)
is non-negative, the spans returned by getLOSpans tile the index range
[0, len-1] contiguously, in increasing order and without overlap; within
every span the maximum target frequency minus the minimum target frequency
is at most the available bandwidth; and a plan of length 1 yields exactly
one span. -/
theorem claim_C4_span_invariants
    (sampleRate : ℚ) (filterBandwidth : ℕ) (loOffset : ℤ) (freqs : List ℕ)
    (hne : freqs ≠ [])
    (hbw : 0 ≤ (getIFBandwidth sampleRate : ℤ) - filterBandwidth - |loOffset|)
    (hlt64 : ∀ f ∈ freqs, f < 2 ^ 64) :
    coversFrom 0 (getLOSpans sampleRate filterBandwidth loOffset freqs) freqs.length ∧
    (∀ s ∈ getLOSpans sampleRate filterBandwidth loOffset freqs,
      natSlicesMax (targetsOf freqs s) - natSlicesMin (targetsOf freqs s) ≤
        ((getIFBandwidth sampleRate : ℤ) - filterBandwidth - |loOffset|).toNat) ∧
    (freqs.length = 1 → (getLOSpans sampleRate filterBandwidth loOffset freqs).length = 1) := by
  have hif8 : getIFBandwidth sampleRate ≤ 8000000 := getIFBandwidth_le sampleRate
  have hifZ : (getIFBandwidth sampleRate : ℤ) ≤ 8000000 := by exact_mod_cast hif8
  have habs : max loOffset (-loOffset) = |loOffset| := by
    rcases abs_cases loOffset with ⟨h1, h2⟩ | ⟨h1, h2⟩ <;> omega
  have hmaxDf : computeMaxDf sampleRate filterBandwidth loOffset =
      ((getIFBandwidth sampleRate : ℤ) - filterBandwidth - |loOffset|).toNat := by
    unfold computeMaxDf
    rw [habs, Int.emod_eq_of_lt hbw (by omega)]
  obtain ⟨f0, rest, rfl⟩ : ∃ f0 rest, freqs = f0 :: rest := by
    cases freqs with
    | nil => exact absurd rfl hne
    | cons a l => exact ⟨a, l, rfl⟩
  have hf0 : f0 < 2 ^ 64 := hlt64 f0 (List.mem_cons_self f0 rest)
  have hmin0 : min (2 ^ 64 - 1) f0 = f0 := by omega
  have hmax0 : max 0 f0 = f0 := by omega
  have hL : getLOSpans sampleRate filterBandwidth loOffset (f0 :: rest) =
      getLOSpansLoop (computeMaxDf sampleRate filterBandwidth loOffset) loOffset rest 1
        ⟨f0, f0, (f0 + f0) % (2 ^ 64) / 2, 0, 0, []⟩ := by
    unfold getLOSpans
    simp only [getLOSpansLoop, hmin0, hmax0]
    rw [if_neg (by omega)]
  have hinv := getLOSpansLoop_invariant (f0 :: rest)
      (computeMaxDf sampleRate filterBandwidth loOffset) loOffset rest 1
      ⟨f0, f0, (f0 + f0) % (2 ^ 64) / 2, 0, 0, []⟩
      rfl (by simp) rfl (le_refl 0) rfl (by simp)
      (by
        intro x hx
        have hx' : x = f0 := by
          simpa [sliceHO] using hx
        subst hx'
        exact ⟨le_refl x, le_refl x⟩)
      (by dsimp only; omega)
  rw [hL, ← hmaxDf]
  refine ⟨hinv.1, fun s hs => ?_, fun hlen1 => ?_⟩
  · have hb := coversFrom_mem_bounds _ _ _ s hinv.1 hs
    have hnt := targetsOf_ne_nil (f0 :: rest) s hb.2.1 hb.2.2
    have hmaxm := natSlicesMax_mem _ hnt
    have hminm := natSlicesMin_mem _ hnt
    exact hinv.2 s hs _ hmaxm _ hminm
  · rw [hlen1] at hinv
    exact coversFrom_length_one _ hinv.1

/-- C4 witness: the span invariants instantiated at the concrete plan
100000/100100/500000 Hz with 600 kHz sample rate, 300 kHz filter bandwidth
and zero offset. -/
theorem claim_C4_span_invariants_witness :
    (([100000, 100100, 500000] : List ℕ) ≠ []) ∧
      (0 ≤ (getIFBandwidth 600000 : ℤ) - 300000 - |(0 : ℤ)|) ∧
      (∀ f ∈ ([100000, 100100, 500000] : List ℕ), f < 2 ^ 64) ∧
      coversFrom 0 (getLOSpans 600000 300000 0 [100000, 100100, 500000])
        ([100000, 100100, 500000] : List ℕ).length :=
  ⟨by decide,
   by simp only [getIFBandwidth, floor_div_thousand]; decide,
   by decide,
   (claim_C4_span_invariants 600000 300000 0 [100000, 100100, 500000] (by decide)
      (by simp only [getIFBandwidth, floor_div_thousand]; decide) (by decide)).1⟩

/-- C5: the plan 100000/100100/500000 Hz with available bandwidth 300000 Hz
(600 kHz sample rate, 300 kHz filter bandwidth, zero offset) yields exactly
the spans [0,1] centered at 100050 (the midpoint of its min and max
targets) and [2,2] centered at 500000; and in general a single-frequency
plan yields one span centered at that frequency plus the offset. -/
theorem claim_C5_span_centers :
    getLOSpans 600000 300000 0 [100000, 100100, 500000] =
      [⟨0, 1, 100050⟩, ⟨2, 2, 500000⟩] ∧
    ∀ (sampleRate : ℚ) (filterBandwidth : ℕ) (f : ℕ) (loOffset : ℤ),
      f < 2 ^ 63 → 0 ≤ (f : ℤ) + loOffset → (f : ℤ) + loOffset < 2 ^ 64 →
      getLOSpans sampleRate filterBandwidth loOffset [f] =
        [⟨0, 0, ((f : ℤ) + loOffset).toNat⟩] := by
  constructor
  · simp only [getLOSpans, computeMaxDf, getIFBandwidth, floor_div_thousand]
    decide
  · intro sr fbw f off hf h0 h1
    have hmin : min (2 ^ 64 - 1) f = f := by omega
    have hmax : max 0 f = f := by omega
    have hflo : (f + f) % 2 ^ 64 / 2 = f := by omega
    unfold getLOSpans
    simp only [getLOSpansLoop, hmin, hmax]
    rw [if_neg (by omega)]
    simp only [getLOSpansLoop, hflo]
    have hc : centerFrequency f off = ((f : ℤ) + off).toNat := by
      unfold centerFrequency
      rw [Int.emod_eq_of_lt h0 h1]
    rw [hc]
    rfl

/-- C5 witness: a single-frequency plan at 1000 Hz with offset 5 yields the
one span centered at 1005. -/
theorem claim_C5_span_centers_witness :
    ((1000 : ℕ) < 2 ^ 63) ∧ (0 ≤ ((1000 : ℕ) : ℤ) + 5) ∧ (((1000 : ℕ) : ℤ) + 5 < 2 ^ 64) ∧
      getLOSpans 600000 0 5 [1000] = [⟨0, 0, (((1000 : ℕ) : ℤ) + 5).toNat⟩] :=
  ⟨by decide, by decide, by decide,
   claim_C5_span_centers.2 600000 0 1000 5 (by decide) (by decide) (by decide)⟩

/-! ## Scan plan generation (func getScanFrequenciesAndIndexes)

The generator's range loops run on uint64 with wrap-around increment and
decrement, and for some validated inputs never terminate (the wrap keeps
the loop condition true); they are therefore embedded with an explicit
fuel bound on the number of iterations.  The result pairs the emitted
frequencies (indexes are consecutive from 0) with a flag that is true
exactly when the loop exited by its own condition within the fuel. -/

/-- The step > 0 branch: emit while frequency <= stop, incrementing by step
with uint64 wrap-around. -/
def ascendingFreqsGo (stop step : ℕ) : ℕ → ℕ → List ℕ × Bool
  | 0, _ => ([], false)
  | fuel + 1, frequency =>
      if frequency ≤ stop then
        let r := ascendingFreqsGo stop step fuel ((frequency + step) % 2 ^ 64)
        (frequency :: r.1, r.2)
      else ([], true)

/-- The step < 0 branch: emit while frequency >= stop, decrementing by
stepU = uint64(-step) with uint64 wrap-around. -/
def descendingFreqsGo (stop stepU : ℕ) : ℕ → ℕ → List ℕ × Bool
  | 0, _ => ([], false)
  | fuel + 1, frequency =>
      if stop ≤ frequency then
        let r := descendingFreqsGo stop stepU fuel ((frequency + (2 ^ 64 - stepU)) % 2 ^ 64)
        (frequency :: r.1, r.2)
      else ([], true)

/-- getScanFrequenciesAndIndexes: the range branches for nonzero step, else
the explicit list when non-empty, else nothing (the source logs an invalid
scan and closes the channel). -/
def getScanFrequenciesAndIndexes (start stop : ℕ) (step : ℤ) (freqList : List ℕ)
    (fuel : ℕ) : List ℕ × Bool :=
  if step > 0 then ascendingFreqsGo stop step.toNat fuel start
  else if step < 0 then descendingFreqsGo stop (-step).toNat fuel start
  else if freqList.length > 0 then (freqList, true)
  else ([], true)

/-- With stop = 0 the descending loop condition frequency >= stop always
holds, so the loop never exits by its condition, whatever the fuel. -/
lemma descendingFreqsGo_stop_zero (stepU : ℕ) :
    ∀ (fuel freq : ℕ), (descendingFreqsGo 0 stepU fuel freq).2 = false := by
  intro fuel
  induction fuel with
  | zero => intro freq; rfl
  | succ n ih =>
    intro freq
    simp [descendingFreqsGo, ih]

/-- C8 failing input: the validated range (start 10, stop 0, step -4)
(stop < start as required for a negative step) makes the generator emit
10, 6, 2 and then wrap the uint64 subtraction 2 - 4 around to 2^64 - 2,
which still satisfies frequency >= stop, so the loop emits an
out-of-range frequency far above start and never terminates — against the
claim that the sequence decreases from start to a last element in
[stop, stop + |step|). -/
theorem claim_C8_descending_wrap_bug :
    (getScanFrequenciesAndIndexes 10 0 (-4) [] 4).1 = [10, 6, 2, 18446744073709551614] ∧
    (∀ fuel, (getScanFrequenciesAndIndexes 10 0 (-4) [] fuel).2 = false) ∧
    (18446744073709551614 ∈ (getScanFrequenciesAndIndexes 10 0 (-4) [] 4).1 ∧
      18446744073709551614 > 10) := by
  refine ⟨by decide, ?_, by decide, by decide⟩
  intro fuel
  have h : getScanFrequenciesAndIndexes 10 0 (-4) [] fuel =
      descendingFreqsGo 0 4 fuel 10 := by
    rfl
  rw [h]
  exact descendingFreqsGo_stop_zero 4 fuel 10

/-! ## The session receive loop (func receiveMessages)

The websocket exchange is embedded as a list of receive events: each
event is either a successfully decoded message (paired with the user
command flags the keyboard task has set since the previous iteration), a
read-deadline expiry, or another transport error.  The mutable globals
(sdrconnectSettings, receiveStats, the user command flags) and the
call-local paused flag and sequence string are carried in an explicit
session state.  The read-deadline manipulation done by the pause handling
has no separate model: when the deadline fires is already encoded by where
deadlineExceeded appears in the event list. -/

/-- The SDRconnectSettings struct. -/
structure SDRconnectSettings where
  deviceName : String
  deviceSerial : String
  profile : String
  sampleRate : ℚ
  filterBandwidth : ℕ
  deviceCenterFrequency : ℕ
  deviceVFOFrequency : ℕ
  demodulator : DemodulatorMode
  lnaState : ℕ
  squelchEnable : Bool
  squelchThreshold : ℚ
  agcEnable : Bool
  agcThreshold : ℚ
deriving DecidableEq, Repr

/-- The ReceiveStats struct.  The Go slices are allocated with capacity
maxStats and never grow past it (appends are guarded by len < cap), so
capacity is modelled as the constant bound maxStats on the length. -/
structure ReceiveStats where
  countMessages : ℕ
  signalPower : List ℚ
  signalSNR : List ℚ
  rdsPI : List ℕ
  rdsPS : List String
deriving DecidableEq, Repr

/-- The capacity of the statistics slices. -/
def maxStats : ℕ := 100

/-- The three user-command flags set by the keyboard task. -/
structure UserCommandFlags where
  togglePause : Bool
  nextScan : Bool
  terminate : Bool
deriving DecidableEq, Repr

/-- The state the receive loop reads and writes: the settings and
statistics globals, the flags, and the call-local paused flag and
handshake sequence string. -/
structure SessionState where
  settings : SDRconnectSettings
  stats : ReceiveStats
  flags : UserCommandFlags
  paused : Bool
  sequence : String
deriving DecidableEq, Repr

/-- One receive attempt: a decoded message (with the flags newly set by
the keyboard task during this iteration), a read-deadline expiry, or
another transport error. -/
inductive RecvEvent where
  | msg (m : Message) (setTogglePause setNextScan setTerminate : Bool)
  | deadlineExceeded
  | ioError
deriving DecidableEq, Repr

/-- How a receiveMessages call ends: nil error (ok), the deadline error,
another transport error, one of the two user-command control-flow errors,
or exhaustion of the modelled event list. -/
inductive RMResult where
  | ok
  | errDeadline
  | errTransport
  | errTerminate
  | errNextScan
  | outOfEvents
deriving DecidableEq, Repr

/-- The final state, the events left unread, and the result of a call. -/
structure RMOutcome where
  state : SessionState
  rest : List RecvEvent
  result : RMResult
deriving Repr

/-- The property_changed switch of receiveMessages: update the settings
field named by the property, collect bounded statistics (discarding zero
station identifiers and blank station names), and extend the handshake
sequence string by one letter for the S/V/C/F properties. -/
def handlePropertyChanged (m : Message) (st : SessionState) : SessionState :=
  if m.property = "device_sample_rate" then
    { st with settings := { st.settings with sampleRate := goParseFloat m.value },
              sequence := st.sequence ++ "S" }
  else if m.property = "device_vfo_frequency" then
    { st with settings := { st.settings with deviceVFOFrequency := goParseUint m.value 64 },
              sequence := st.sequence ++ "V" }
  else if m.property = "device_center_frequency" then
    { st with settings := { st.settings with deviceCenterFrequency := goParseUint m.value 64 },
              sequence := st.sequence ++ "C" }
  else if m.property = "filter_bandwidth" then
    { st with settings := { st.settings with filterBandwidth := goParseUint m.value 32 },
              sequence := st.sequence ++ "F" }
  else if m.property = "signal_power" then
    if st.stats.signalPower.length < maxStats then
      { st with stats :=
          { st.stats with signalPower := st.stats.signalPower ++ [goParseFloat m.value] } }
    else st
  else if m.property = "signal_snr" then
    if st.stats.signalSNR.length < maxStats then
      { st with stats :=
          { st.stats with signalSNR := st.stats.signalSNR ++ [goParseFloat m.value] } }
    else st
  else if m.property = "rds_pi" then
    if st.stats.rdsPI.length < maxStats then
      if goParseUint m.value 16 ≠ 0 then
        { st with stats := { st.stats with rdsPI := st.stats.rdsPI ++ [goParseUint m.value 16] } }
      else st
    else st
  else if m.property = "rds_ps" then
    if st.stats.rdsPS.length < maxStats then
      if goTrimSpace m.value ≠ "" then
        { st with stats := { st.stats with rdsPS := st.stats.rdsPS ++ [goTrimSpace m.value] } }
      else st
    else st
  else if m.property = "demodulator" then
    { st with settings := { st.settings with demodulator := goParseDemodulatorMode m.value } }
  else if m.property = "lna_state" then
    { st with settings := { st.settings with lnaState := goParseUint m.value 32 } }
  else if m.property = "squelch_enable" then
    { st with settings := { st.settings with squelchEnable := goParseBool m.value } }
  else if m.property = "squelch_threshold" then
    { st with settings := { st.settings with squelchThreshold := goParseFloat m.value } }
  else if m.property = "agc_enable" then
    { st with settings := { st.settings with agcEnable := goParseBool m.value } }
  else if m.property = "agc_threshold" then
    { st with settings := { st.settings with agcThreshold := goParseFloat m.value } }
  else st

/-- The receive loop.  On a read error: a deadline expiry with no pattern
and a positive message counter is success, any other error is returned.
On a message: count it, consume at most one user-command flag (terminate
and skip return immediately, pause just flips the paused flag), then
dispatch property_changed events and stop with success when the supplied
pattern matches the sequence string. -/
def receiveMessagesLoop (sequencePattern : Option (String → Bool)) :
    List RecvEvent → SessionState → RMOutcome
  | [], st => ⟨st, [], .outOfEvents⟩
  | .deadlineExceeded :: rest, st =>
      if sequencePattern.isNone ∧ st.stats.countMessages > 0 then ⟨st, rest, .ok⟩
      else ⟨st, rest, .errDeadline⟩
  | .ioError :: rest, st => ⟨st, rest, .errTransport⟩
  | .msg m sP sN sT :: rest, st =>
      let st1 : SessionState := { st with
        stats := { st.stats with countMessages := st.stats.countMessages + 1 },
        flags := ⟨st.flags.togglePause || sP, st.flags.nextScan || sN, st.flags.terminate || sT⟩ }
      if st1.flags.terminate then
        ⟨{ st1 with flags := { st1.flags with terminate := false } }, rest, .errTerminate⟩
      else if st1.flags.nextScan then
        ⟨{ st1 with flags := { st1.flags with nextScan := false } }, rest, .errNextScan⟩
      else
        let st2 : SessionState := if st1.flags.togglePause then
            { st1 with flags := { st1.flags with togglePause := false }, paused := !st1.paused }
          else st1
        if m.eventType = "property_changed" then
          let st3 := handlePropertyChanged m st2
          match sequencePattern with
          | some p => if p st3.sequence then ⟨st3, rest, .ok⟩
                      else receiveMessagesLoop sequencePattern rest st3
          | none => receiveMessagesLoop sequencePattern rest st3
        else receiveMessagesLoop sequencePattern rest st2

/-- receiveMessages: run the loop with the call-local paused flag and
sequence string initialized. -/
def receiveMessages (sequencePattern : Option (String → Bool)) (events : List RecvEvent)
    (settings : SDRconnectSettings) (stats : ReceiveStats) (flags : UserCommandFlags) :
    RMOutcome :=
  receiveMessagesLoop sequencePattern events ⟨settings, stats, flags, false, ""⟩

/-- A convenient all-zero settings value for concrete runs. -/
def settings0 : SDRconnectSettings :=
  ⟨"", "", "", 0, 0, 0, 0, .unknown, 0, false, 0, false, 0⟩

/-- Empty statistics, as after the per-frequency clear. -/
def stats0 : ReceiveStats := ⟨0, [], [], [], []⟩

/-- All user-command flags clear. -/
def flags0 : UserCommandFlags := ⟨false, false, false⟩

lemma handlePropertyChanged_stats_spec (m : Message) (st : SessionState) :
    (handlePropertyChanged m st).stats.countMessages = st.stats.countMessages ∧
    ((handlePropertyChanged m st).stats.rdsPI = st.stats.rdsPI ∨
      ((handlePropertyChanged m st).stats.rdsPI = st.stats.rdsPI ++ [goParseUint m.value 16] ∧
        goParseUint m.value 16 ≠ 0)) ∧
    ((handlePropertyChanged m st).stats.rdsPS = st.stats.rdsPS ∨
      ((handlePropertyChanged m st).stats.rdsPS = st.stats.rdsPS ++ [goTrimSpace m.value] ∧
        goTrimSpace m.value ≠ "")) := by
  unfold handlePropertyChanged
  by_cases h0 : m.property = "device_sample_rate"
  · rw [if_pos h0]
    exact ⟨rfl, Or.inl rfl, Or.inl rfl⟩
  rw [if_neg h0]
  by_cases h1 : m.property = "device_vfo_frequency"
  · rw [if_pos h1]
    exact ⟨rfl, Or.inl rfl, Or.inl rfl⟩
  rw [if_neg h1]
  by_cases h2 : m.property = "device_center_frequency"
  · rw [if_pos h2]
    exact ⟨rfl, Or.inl rfl, Or.inl rfl⟩
  rw [if_neg h2]
  by_cases h3 : m.property = "filter_bandwidth"
  · rw [if_pos h3]
    exact ⟨rfl, Or.inl rfl, Or.inl rfl⟩
  rw [if_neg h3]
  by_cases h4 : m.property = "signal_power"
  · rw [if_pos h4]
    by_cases hl4 : st.stats.signalPower.length < maxStats
    · rw [if_pos hl4]
      exact ⟨rfl, Or.inl rfl, Or.inl rfl⟩
    · rw [if_neg hl4]
      exact ⟨rfl, Or.inl rfl, Or.inl rfl⟩
  rw [if_neg h4]
  by_cases h5 : m.property = "signal_snr"
  · rw [if_pos h5]
    by_cases hl5 : st.stats.signalSNR.length < maxStats
    · rw [if_pos hl5]
      exact ⟨rfl, Or.inl rfl, Or.inl rfl⟩
    · rw [if_neg hl5]
      exact ⟨rfl, Or.inl rfl, Or.inl rfl⟩
  rw [if_neg h5]
  by_cases h6 : m.property = "rds_pi"
  · rw [if_pos h6]
    by_cases hl : st.stats.rdsPI.length < maxStats
    · rw [if_pos hl]
      by_cases hz : goParseUint m.value 16 ≠ 0
      · rw [if_pos hz]
        exact ⟨rfl, Or.inr ⟨rfl, hz⟩, Or.inl rfl⟩
      · rw [if_neg hz]
        exact ⟨rfl, Or.inl rfl, Or.inl rfl⟩
    · rw [if_neg hl]
      exact ⟨rfl, Or.inl rfl, Or.inl rfl⟩
  rw [if_neg h6]
  by_cases h7 : m.property = "rds_ps"
  · rw [if_pos h7]
    by_cases hl : st.stats.rdsPS.length < maxStats
    · rw [if_pos hl]
      by_cases hz : goTrimSpace m.value ≠ ""
      · rw [if_pos hz]
        exact ⟨rfl, Or.inl rfl, Or.inr ⟨rfl, hz⟩⟩
      · rw [if_neg hz]
        exact ⟨rfl, Or.inl rfl, Or.inl rfl⟩
    · rw [if_neg hl]
      exact ⟨rfl, Or.inl rfl, Or.inl rfl⟩
  rw [if_neg h7]
  by_cases h8 : m.property = "demodulator"
  · rw [if_pos h8]
    exact ⟨rfl, Or.inl rfl, Or.inl rfl⟩
  rw [if_neg h8]
  by_cases h9 : m.property = "lna_state"
  · rw [if_pos h9]
    exact ⟨rfl, Or.inl rfl, Or.inl rfl⟩
  rw [if_neg h9]
  by_cases h10 : m.property = "squelch_enable"
  · rw [if_pos h10]
    exact ⟨rfl, Or.inl rfl, Or.inl rfl⟩
  rw [if_neg h10]
  by_cases h11 : m.property = "squelch_threshold"
  · rw [if_pos h11]
    exact ⟨rfl, Or.inl rfl, Or.inl rfl⟩
  rw [if_neg h11]
  by_cases h12 : m.property = "agc_enable"
  · rw [if_pos h12]
    exact ⟨rfl, Or.inl rfl, Or.inl rfl⟩
  rw [if_neg h12]
  by_cases h13 : m.property = "agc_threshold"
  · rw [if_pos h13]
    exact ⟨rfl, Or.inl rfl, Or.inl rfl⟩
  rw [if_neg h13]
  exact ⟨rfl, Or.inl rfl, Or.inl rfl⟩

/-- C9: in any iteration of the session loop, if the terminate flag is set
when the flags are examined after a message is read, the loop returns the
terminate control-flow result in that same iteration, leaving the
remaining events unread, with the terminate flag cleared (and the message
still counted). -/
theorem claim_C9_terminate_immediate (sequencePattern : Option (String → Bool))
    (m : Message) (sP sN sT : Bool) (rest : List RecvEvent) (st : SessionState)
    (hterm : (st.flags.terminate || sT) = true) :
    receiveMessagesLoop sequencePattern (.msg m sP sN sT :: rest) st =
      ⟨{ st with
           stats := { st.stats with countMessages := st.stats.countMessages + 1 },
           flags := ⟨st.flags.togglePause || sP, st.flags.nextScan || sN, false⟩ },
        rest, .errTerminate⟩ := by
  simp only [receiveMessagesLoop]
  rw [if_pos hterm]

/-- C9 witness: a concrete iteration with the terminate flag freshly set
returns the terminate result at once, the tail events unread. -/
theorem claim_C9_terminate_immediate_witness :
    ((flags0.terminate || true) = true) ∧
      receiveMessagesLoop none
          [.msg ⟨"property_changed", "signal_power", "-50"⟩ false false true, .ioError]
          ⟨settings0, stats0, flags0, false, ""⟩ =
        ⟨{ settings := settings0,
           stats := { stats0 with countMessages := stats0.countMessages + 1 },
           flags := ⟨flags0.togglePause || false, flags0.nextScan || false, false⟩,
           paused := false, sequence := "" },
          [.ioError], .errTerminate⟩ :=
  ⟨by decide,
   claim_C9_terminate_immediate none ⟨"property_changed", "signal_power", "-50"⟩
     false false true [.ioError] ⟨settings0, stats0, flags0, false, ""⟩ (by decide)⟩

lemma receiveMessagesLoop_none_deadline :
    ∀ (events : List RecvEvent) (st : SessionState),
      ((receiveMessagesLoop none events st).result = .ok ∨
        (receiveMessagesLoop none events st).result = .errDeadline) →
      (((receiveMessagesLoop none events st).result = .ok ↔
          0 < (receiveMessagesLoop none events st).state.stats.countMessages) ∧
        st.stats.countMessages ≤ (receiveMessagesLoop none events st).state.stats.countMessages) := by
  intro events
  induction events with
  | nil =>
    intro st h
    exfalso
    simp [receiveMessagesLoop] at h
  | cons ev rest ih =>
    intro st h
    cases ev with
    | deadlineExceeded =>
      by_cases hc : 0 < st.stats.countMessages
      · simp [receiveMessagesLoop, hc]
      · simp [receiveMessagesLoop, hc]
    | ioError =>
      exfalso
      simp [receiveMessagesLoop] at h
    | msg m sP sN sT =>
      simp only [receiveMessagesLoop] at h ⊢
      by_cases ht : (st.flags.terminate || sT) = true
      · rw [if_pos ht] at h ⊢
        exfalso
        simp at h
      · rw [if_neg ht] at h ⊢
        by_cases hn : (st.flags.nextScan || sN) = true
        · rw [if_pos hn] at h ⊢
          exfalso
          simp at h
        · rw [if_neg hn] at h ⊢
          by_cases he : m.eventType = "property_changed"
          · rw [if_pos he] at h ⊢
            have := ih _ h
            refine ⟨this.1, le_trans ?_ this.2⟩
            rw [(handlePropertyChanged_stats_spec m _).1]
            split <;> (dsimp only; omega)
          · rw [if_neg he] at h ⊢
            have := ih _ h
            refine ⟨this.1, le_trans ?_ this.2⟩
            split <;> (dsimp only; omega)

/-- C1 counterexample: a drain call with no pattern whose event stream
contains no message at all before the deadline expiry, made while the
global message counter is already 1 (as after an earlier call at the same
frequency), returns success — refuting the claim that a deadline expiry is
an error whenever zero messages were received during that call. -/
theorem claim_C1_counterexample :
    (receiveMessages none [.deadlineExceeded] settings0 ⟨1, [], [], [], []⟩ flags0).result =
      .ok ∧
    (receiveMessages none [.deadlineExceeded] settings0
        ⟨1, [], [], [], []⟩ flags0).state.stats.countMessages = 1 := by
  constructor <;> rfl

/-- C1 amended: for a call with no pattern that ends at a deadline expiry
(result nil or the deadline error), the expiry is returned as success if
and only if the global message counter — which persists across calls and is
cleared only when the statistics are cleared at a new frequency — is
positive at the expiry; the counter never decreases during the call, and
for a call entered with the counter at zero this condition coincides with
at least one message having been received during the call. -/
theorem claim_C1_deadline_amended (events : List RecvEvent) (settings : SDRconnectSettings)
    (stats : ReceiveStats) (flags : UserCommandFlags)
    (hend : (receiveMessages none events settings stats flags).result = .ok ∨
      (receiveMessages none events settings stats flags).result = .errDeadline) :
    ((receiveMessages none events settings stats flags).result = .ok ↔
      0 < (receiveMessages none events settings stats flags).state.stats.countMessages) ∧
    stats.countMessages ≤
      (receiveMessages none events settings stats flags).state.stats.countMessages :=
  receiveMessagesLoop_none_deadline events ⟨settings, stats, flags, false, ""⟩ hend

/-- C1 amended witness: a fresh call (counter zero) that receives one
message and then hits the deadline returns success. -/
theorem claim_C1_deadline_amended_witness :
    ((receiveMessages none [.msg ⟨"a", "b", "c"⟩ false false false, .deadlineExceeded]
        settings0 stats0 flags0).result = .ok ∨
      (receiveMessages none [.msg ⟨"a", "b", "c"⟩ false false false, .deadlineExceeded]
        settings0 stats0 flags0).result = .errDeadline) ∧
    ((receiveMessages none [.msg ⟨"a", "b", "c"⟩ false false false, .deadlineExceeded]
        settings0 stats0 flags0).result = .ok ↔
      0 < (receiveMessages none [.msg ⟨"a", "b", "c"⟩ false false false, .deadlineExceeded]
        settings0 stats0 flags0).state.stats.countMessages) ∧
    stats0.countMessages ≤
      (receiveMessages none [.msg ⟨"a", "b", "c"⟩ false false false, .deadlineExceeded]
        settings0 stats0 flags0).state.stats.countMessages :=
  ⟨Or.inl (by rfl),
   (claim_C1_deadline_amended _ _ _ _ (Or.inl (by rfl))).1,
   (claim_C1_deadline_amended _ _ _ _ (Or.inl (by rfl))).2⟩

/-! ## The rds_pi / rds_ps statistics invariant (C10) -/

/-- The statistics invariant: no stored station identifier is 0 and no
stored station name is empty or all white space. -/
def statsRDSInvariant (stats : ReceiveStats) : Prop :=
  (∀ c ∈ stats.rdsPI, c ≠ 0) ∧
  (∀ n ∈ stats.rdsPS, n ≠ "" ∧ n.toList.all isGoSpace = false)

lemma dropWhile_head_not (p : Char → Bool) : ∀ (l : List Char) (a : Char) (t : List Char),
    l.dropWhile p = a :: t → p a = false := by
  intro l
  induction l with
  | nil => intro a t h; simp [List.dropWhile] at h
  | cons x xs ih =>
    intro a t h
    by_cases hx : p x = true
    · rw [List.dropWhile_cons_of_pos hx] at h
      exact ih a t h
    · rw [List.dropWhile_cons_of_neg hx] at h
      injection h with h1 h2
      rw [← h1]
      simpa using hx

/-- A non-empty trimmed string contains a non-space character: its first
character survived the trailing dropWhile over the reversed list. -/
lemma goTrimSpace_not_blank (s : String) (h : goTrimSpace s ≠ "") :
    (goTrimSpace s).toList.all isGoSpace = false := by
  unfold goTrimSpace at h ⊢
  set z := List.dropWhile isGoSpace ((List.dropWhile isGoSpace s.toList).reverse) with hz
  have htl : (String.mk z.reverse).toList = z.reverse := rfl
  rw [htl]
  cases hzz : z with
  | nil =>
    exfalso
    apply h
    rw [hzz]
    rfl
  | cons a t =>
    have hpa : isGoSpace a = false := dropWhile_head_not isGoSpace _ a t (hz ▸ hzz)
    rw [List.reverse_cons, List.all_append]
    simp [hpa]

lemma handlePropertyChanged_preserves_rds (m : Message) (st : SessionState)
    (hinv : statsRDSInvariant st.stats) :
    statsRDSInvariant (handlePropertyChanged m st).stats := by
  obtain ⟨h1, h2⟩ := hinv
  obtain ⟨-, hPI, hPS⟩ := handlePropertyChanged_stats_spec m st
  constructor
  · rcases hPI with hsame | ⟨heq, hne⟩
    · rw [hsame]; exact h1
    · rw [heq]
      intro c hc
      rcases List.mem_append.mp hc with hm | hm
      · exact h1 c hm
      · have hce : c = goParseUint m.value 16 := by simpa using hm
        rw [hce]; exact hne
  · rcases hPS with hsame | ⟨heq, hne⟩
    · rw [hsame]; exact h2
    · rw [heq]
      intro n hn
      rcases List.mem_append.mp hn with hm | hm
      · exact h2 n hm
      · have hne2 : n = goTrimSpace m.value := by simpa using hm
        rw [hne2]
        exact ⟨hne, goTrimSpace_not_blank _ hne⟩

lemma receiveMessagesLoop_preserves_rds (sequencePattern : Option (String → Bool)) :
    ∀ (events : List RecvEvent) (st : SessionState),
      statsRDSInvariant st.stats →
      statsRDSInvariant (receiveMessagesLoop sequencePattern events st).state.stats := by
  intro events
  induction events with
  | nil => intro st h; exact h
  | cons ev rest ih =>
    intro st h
    cases ev with
    | deadlineExceeded =>
      simp only [receiveMessagesLoop]
      split <;> exact h
    | ioError => exact h
    | msg m sP sN sT =>
      simp only [receiveMessagesLoop]
      repeat' split
      all_goals first
        | exact h
        | exact handlePropertyChanged_preserves_rds m _ h
        | exact ih _ h
        | exact ih _ (handlePropertyChanged_preserves_rds m _ h)

/-- C10: the statistics never store a zero station identifier nor a blank
station name: the invariant is preserved by every receiveMessages call,
and a property_changed event for rds_pi whose value parses to 0, or for
rds_ps whose trimmed value is empty, leaves the respective statistics list
unchanged. -/
theorem claim_C10_rds_filtering :
    (∀ (sequencePattern : Option (String → Bool)) (events : List RecvEvent)
        (settings : SDRconnectSettings) (stats : ReceiveStats) (flags : UserCommandFlags),
      statsRDSInvariant stats →
      statsRDSInvariant (receiveMessages sequencePattern events settings stats flags).state.stats) ∧
    (∀ (m : Message) (st : SessionState), m.property = "rds_pi" →
      goParseUint m.value 16 = 0 →
      (handlePropertyChanged m st).stats.rdsPI = st.stats.rdsPI) ∧
    (∀ (m : Message) (st : SessionState), m.property = "rds_ps" →
      goTrimSpace m.value = "" →
      (handlePropertyChanged m st).stats.rdsPS = st.stats.rdsPS) := by
  refine ⟨?_, ?_, ?_⟩
  · intro sequencePattern events settings stats flags hinv
    exact receiveMessagesLoop_preserves_rds sequencePattern events
      ⟨settings, stats, flags, false, ""⟩ hinv
  · intro m st _ hzero
    rcases (handlePropertyChanged_stats_spec m st).2.1 with hsame | ⟨-, hne⟩
    · exact hsame
    · exact absurd hzero hne
  · intro m st _ hblank
    rcases (handlePropertyChanged_stats_spec m st).2.2 with hsame | ⟨-, hne⟩
    · exact hsame
    · exact absurd hblank hne

/-- C10 witness: a run over one rds_pi event parsing to 0 and one blank
rds_ps event keeps the (empty) statistics satisfying the invariant. -/
theorem claim_C10_rds_filtering_witness :
    statsRDSInvariant stats0 ∧
      statsRDSInvariant (receiveMessages none
        [.msg ⟨"property_changed", "rds_pi", "0"⟩ false false false,
         .msg ⟨"property_changed", "rds_ps", "   "⟩ false false false]
        settings0 stats0 flags0).state.stats :=
  ⟨⟨by simp [stats0], by simp [stats0]⟩,
   claim_C10_rds_filtering.1 none
     [.msg ⟨"property_changed", "rds_pi", "0"⟩ false false false,
      .msg ⟨"property_changed", "rds_ps", "   "⟩ false false false]
     settings0 stats0 flags0 ⟨by simp [stats0], by simp [stats0]⟩⟩

/-! ## Set-property confirmation (func setSdrconnectProperty) -/

/-- How a setSdrconnectProperty call ends: nil error, a transport error
other than the deadline, or exhaustion of the modelled event list. -/
inductive SetPropResult where
  | ok
  | errTransport
  | outOfEvents
deriving DecidableEq, Repr

/-- The (actualValue, changed, err) results of setSdrconnectProperty. -/
structure SetPropOutcome where
  actualValue : String
  changed : Bool
  result : SetPropResult
deriving DecidableEq, Repr

/-- The receive loop of setSdrconnectProperty (the send is modelled as
having succeeded; it precedes the loop).  A deadline expiry is treated as
the property already having the requested value: actualValue is the
requested value, changed stays false, the error is cleared.  A matching
property_changed event returns its value with changed true. -/
def setSdrconnectProperty (property value : String) : List RecvEvent → SetPropOutcome
  | [] => ⟨"", false, .outOfEvents⟩
  | .deadlineExceeded :: _ => ⟨value, false, .ok⟩
  | .ioError :: _ => ⟨"", false, .errTransport⟩
  | .msg m _ _ _ :: rest =>
      if m.eventType = "property_changed" ∧ m.property = property then ⟨m.value, true, .ok⟩
      else setSdrconnectProperty property value rest

/-- An event that is a decoded message not confirming the given property. -/
def isNonMatchingMsg (property : String) : RecvEvent → Bool
  | .msg m _ _ _ => !(m.eventType = "property_changed" && m.property = property)
  | _ => false

/-- C7: when every event before the deadline expiry is a message that is
not a property_changed confirmation of the requested property,
setSdrconnectProperty returns changed = false, actualValue equal to the
requested value, and no error. -/
theorem claim_C7_set_property_timeout (property value : String) :
    ∀ (pre rest : List RecvEvent),
      pre.all (isNonMatchingMsg property) = true →
      setSdrconnectProperty property value (pre ++ .deadlineExceeded :: rest) =
        ⟨value, false, .ok⟩ := by
  intro pre
  induction pre with
  | nil => intro rest _; rfl
  | cons e pre2 ih =>
    intro rest hpre
    simp only [List.all_cons, Bool.and_eq_true] at hpre
    obtain ⟨he, hrest⟩ := hpre
    cases e with
    | msg m sP sN sT =>
      simp only [List.cons_append, setSdrconnectProperty]
      rw [if_neg]
      · exact ih rest hrest
      · intro hc
        simp [isNonMatchingMsg, hc.1, hc.2] at he
    | deadlineExceeded => simp [isNonMatchingMsg] at he
    | ioError => simp [isNonMatchingMsg] at he

/-- C7 witness: a set of squelch_enable that sees only an unrelated
property_changed event before the deadline returns the requested value,
changed = false and no error. -/
theorem claim_C7_set_property_timeout_witness :
    (([.msg ⟨"property_changed", "agc_enable", "true"⟩ false false false] :
        List RecvEvent).all (isNonMatchingMsg "squelch_enable") = true) ∧
      setSdrconnectProperty "squelch_enable" "true"
          ([.msg ⟨"property_changed", "agc_enable", "true"⟩ false false false] ++
            .deadlineExceeded :: []) = ⟨"true", false, .ok⟩ :=
  ⟨by decide,
   claim_C7_set_property_timeout "squelch_enable" "true"
     [.msg ⟨"property_changed", "agc_enable", "true"⟩ false false false] [] (by decide)⟩

end SdrconnectScanner

